import Mathlib

/-
Verification of the Ruban schedule-reconciliation engine (main.py / betamain.py)
against its natural-language specification.

The shallow embedding below follows the Python source:
  * GTFS tables are lists of records (one record per dataframe row).
  * GTFS times of day are the parsed `hours:minutes:seconds` offsets, in
    seconds, from midnight of the service day (`parse_gtfs_time`); a missing
    (NaN) cell is `none`.
  * A calendar date carries the 8-digit YYYYMMDD integer and the weekday
    (0 = monday .. 6 = sunday) that the external date library produces.
  * A naive `datetime` instant is its calendar date plus the time of day in
    seconds since midnight; instants that arithmetic moves across midnight are
    represented as signed second offsets from midnight of the reference date
    (naive datetime arithmetic makes every day exactly 86400 seconds long).
  * Operations that can raise in Python (parsing a missing time) return
    `Option`, with `none` marking the raising run.
-/

namespace Ruban

/-- Calendar date as the engine sees it: the 8-digit YYYYMMDD integer and the
weekday index (0 = monday .. 6 = sunday), both produced by `strftime`. -/
structure Date where
  ymd : Nat
  weekday : Fin 7
deriving DecidableEq

/-- A naive datetime instant: its calendar date plus the time of day in
seconds since midnight (always in `[0, 86400)` for a real datetime). -/
structure Instant where
  date : Date
  tod : Nat
deriving DecidableEq

/-- Row of routes.txt. -/
structure Route where
  route_id : String
  route_short_name : String
deriving DecidableEq

/-- Row of trips.txt. -/
structure Trip where
  trip_id : String
  route_id : String
  service_id : String
deriving DecidableEq

/-- Row of stop_times.txt; arrival/departure are parsed second offsets from
the service-day midnight, `none` when the cell is NaN. -/
structure StopTime where
  trip_id : String
  stop_sequence : Nat
  arrival_time : Option Nat
  departure_time : Option Nat
  stop_id : String
deriving DecidableEq

/-- Row of stops.txt. -/
structure Stop where
  stop_id : String
  stop_name : String
deriving DecidableEq

/-- Row of calendar.txt (start/end dates already coerced to integers). -/
structure CalendarRow where
  service_id : String
  start_date : Nat
  end_date : Nat
  monday : Bool
  tuesday : Bool
  wednesday : Bool
  thursday : Bool
  friday : Bool
  saturday : Bool
  sunday : Bool
deriving DecidableEq

/-- Row of calendar_dates.txt. -/
structure CalendarDate where
  service_id : String
  date : Nat
  exception_type : Nat
deriving DecidableEq

/-- The dictionary of dataframes returned by `load_gtfs_data`. -/
structure GtfsData where
  routes : List Route
  trips : List Trip
  stop_times : List StopTime
  stops : List Stop
  calendar : List CalendarRow
  calendar_dates : List CalendarDate
deriving DecidableEq

/-- The weekday column of a calendar row selected by `calendar[weekday]`. -/
def dayFlag (c : CalendarRow) (w : Fin 7) : Bool :=
  if w.val = 0 then c.monday
  else if w.val = 1 then c.tuesday
  else if w.val = 2 then c.wednesday
  else if w.val = 3 then c.thursday
  else if w.val = 4 then c.friday
  else if w.val = 5 then c.saturday
  else c.sunday

/-- `get_active_service_ids` (main.py 89-111, betamain.py 62-84): weekly
pattern rows in date range with the weekday flag set, minus services with a
type-2 exception dated today, plus services with a type-1 exception dated
today. -/
def get_active_service_ids (g : GtfsData) (d : Date) : List String :=
  let ymd := d.ymd
  let weekly :=
    (g.calendar.filter fun c =>
      decide (c.start_date ≤ ymd ∧ ymd ≤ c.end_date ∧ dayFlag c d.weekday = true)).map
      fun c => c.service_id
  let exc := g.calendar_dates.filter fun e => decide (e.date = ymd)
  let added := (exc.filter fun e => decide (e.exception_type = 1)).map fun e => e.service_id
  let removed := (exc.filter fun e => decide (e.exception_type = 2)).map fun e => e.service_id
  (weekly.filter fun s => decide (s ∉ removed)) ++ added

/-- Minimum of a list of naturals, as pandas `min` over the non-NaN cells. -/
def minList : List Nat → Option Nat
  | [] => none
  | a :: l =>
    match minList l with
    | none => some a
    | some b => some (if a ≤ b then a else b)

/-- Maximum of a list of naturals, as pandas `max` over the non-NaN cells. -/
def maxList : List Nat → Option Nat
  | [] => none
  | a :: l =>
    match maxList l with
    | none => some a
    | some b => some (if b ≤ a then a else b)

theorem minList_eq_some_iff (l : List Nat) (m : Nat) :
    minList l = some m ↔ m ∈ l ∧ ∀ x ∈ l, m ≤ x := by
  induction l generalizing m with
  | nil => simp [minList]
  | cons a l ih =>
    cases hl : minList l with
    | none =>
      have hnil : l = [] := by
        cases l with
        | nil => rfl
        | cons b l' =>
          simp only [minList] at hl
          cases h' : minList l' <;> simp [h'] at hl
      subst hnil
      simp only [minList, Option.some.injEq, List.mem_singleton, List.mem_cons,
        List.not_mem_nil, or_false]
      constructor
      · rintro rfl; exact ⟨rfl, by rintro x rfl; exact le_refl _⟩
      · rintro ⟨rfl, _⟩; rfl
    | some b =>
      have hb := (ih b).mp hl
      simp only [minList, hl, Option.some.injEq]
      constructor
      · rintro rfl
        constructor
        · split
          · exact List.mem_cons_self ..
          · exact List.mem_cons_of_mem _ hb.1
        · intro x hx
          rcases List.mem_cons.mp hx with rfl | hx
          · split <;> omega
          · have := hb.2 x hx
            split <;> omega
      · rintro ⟨hmem, hle⟩
        have h1 : m ≤ a := hle a (List.mem_cons_self ..)
        have h2 : m ≤ b := hle b (List.mem_cons_of_mem _ hb.1)
        have h5 : a = m ∨ b = m := by
          rcases List.mem_cons.mp hmem with rfl | hml
          · exact Or.inl rfl
          · exact Or.inr (Nat.le_antisymm (hb.2 m hml) h2)
        rcases h5 with h5 | h5 <;> (split <;> omega)

theorem maxList_eq_some_iff (l : List Nat) (m : Nat) :
    maxList l = some m ↔ m ∈ l ∧ ∀ x ∈ l, x ≤ m := by
  induction l generalizing m with
  | nil => simp [maxList]
  | cons a l ih =>
    cases hl : maxList l with
    | none =>
      have hnil : l = [] := by
        cases l with
        | nil => rfl
        | cons b l' =>
          simp only [maxList] at hl
          cases h' : maxList l' <;> simp [h'] at hl
      subst hnil
      simp only [maxList, Option.some.injEq, List.mem_singleton, List.mem_cons,
        List.not_mem_nil, or_false]
      constructor
      · rintro rfl; exact ⟨rfl, by rintro x rfl; exact le_refl _⟩
      · rintro ⟨rfl, _⟩; rfl
    | some b =>
      have hb := (ih b).mp hl
      simp only [maxList, hl, Option.some.injEq]
      constructor
      · rintro rfl
        constructor
        · split
          · exact List.mem_cons_self ..
          · exact List.mem_cons_of_mem _ hb.1
        · intro x hx
          rcases List.mem_cons.mp hx with rfl | hx
          · split <;> omega
          · have := hb.2 x hx
            split <;> omega
      · rintro ⟨hmem, hle⟩
        have h1 : a ≤ m := hle a (List.mem_cons_self ..)
        have h2 : b ≤ m := hle b (List.mem_cons_of_mem _ hb.1)
        have h5 : a = m ∨ b = m := by
          rcases List.mem_cons.mp hmem with rfl | hml
          · exact Or.inl rfl
          · exact Or.inr (Nat.le_antisymm h2 (hb.2 m hml))
        rcases h5 with h5 | h5 <;> (split <;> omega)

/-- Claim C3: for every target date, `get_active_service_ids` returns exactly
the services of calendar rows whose date range contains the date and whose
weekday flag is set, minus the services with a type-2 (removed) exception
dated exactly that date, unioned with the services with a type-1 (added)
exception dated exactly that date; the exceptions are applied after the
weekly-pattern set, so an added exception activates a service absent from the
weekly pattern and a removed exception deactivates one present in it. -/
theorem C3_active_service_ids (g : GtfsData) (d : Date) (s : String) :
    s ∈ get_active_service_ids g d ↔
      ((∃ c ∈ g.calendar, c.service_id = s ∧ c.start_date ≤ d.ymd ∧ d.ymd ≤ c.end_date ∧
          dayFlag c d.weekday = true) ∧
        ¬ (∃ e ∈ g.calendar_dates, e.service_id = s ∧ e.date = d.ymd ∧ e.exception_type = 2)) ∨
      (∃ e ∈ g.calendar_dates, e.service_id = s ∧ e.date = d.ymd ∧ e.exception_type = 1) := by
  simp only [get_active_service_ids, List.mem_append, List.mem_filter, List.mem_map,
    decide_eq_true_eq]
  constructor
  · rintro (⟨⟨c, ⟨hc, hcond⟩, rfl⟩, hnot⟩ | ⟨e, ⟨⟨he, hdate⟩, htype⟩, rfl⟩)
    · refine Or.inl ⟨⟨c, hc, rfl, hcond.1, hcond.2.1, hcond.2.2⟩, ?_⟩
      rintro ⟨e, he, hse, hde, hte⟩
      exact hnot ⟨e, ⟨⟨he, hde⟩, hte⟩, hse⟩
    · exact Or.inr ⟨e, he, rfl, hdate, htype⟩
  · rintro (⟨⟨c, hc, hcs, h1, h2, h3⟩, hnot⟩ | ⟨e, he, hse, hde, hte⟩)
    · refine Or.inl ⟨⟨c, ⟨hc, h1, h2, h3⟩, hcs⟩, ?_⟩
      rintro ⟨e, ⟨⟨he, hde⟩, hte⟩, hse⟩
      exact hnot ⟨e, he, hse, hde, hte⟩
    · exact Or.inr ⟨e, ⟨⟨he, hde⟩, hte⟩, hse⟩

/-- Stop-time rows of one trip (`stop_times[stop_times.trip_id == t]`). -/
def tripEntries (stop_times : List StopTime) (t : String) : List StopTime :=
  stop_times.filter fun e => decide (e.trip_id = t)

/-- The non-NaN departure cells of one trip. -/
def tripDepartures (stop_times : List StopTime) (t : String) : List Nat :=
  (tripEntries stop_times t).filterMap fun e => e.departure_time

/-- The non-NaN arrival cells of one trip. -/
def tripArrivals (stop_times : List StopTime) (t : String) : List Nat :=
  (tripEntries stop_times t).filterMap fun e => e.arrival_time

/-- The `start`/`end` pair computed by
`stop_times.groupby(trip_id).agg(min departure, max arrival)` for one trip,
`none` when a bound is NaN (parsing it would raise in the source). -/
def tripBounds (stop_times : List StopTime) (t : String) : Option (Nat × Nat) :=
  match minList (tripDepartures stop_times t), maxList (tripArrivals stop_times t) with
  | some st, some en => some (st, en)
  | _, _ => none

/-- The group keys of `stop_times.groupby(trip_id)`. -/
def tripIds (stop_times : List StopTime) : List String :=
  (stop_times.map fun e => e.trip_id).dedup

/-- `trips.service_id.isin(services)` restricted to one trip id: does some
trips.txt row for this trip carry an active service. -/
def isActiveTrip (g : GtfsData) (services : List String) (t : String) : Bool :=
  g.trips.any fun tr => decide (tr.trip_id = t ∧ tr.service_id ∈ services)

/-- The overnight correction guard of `get_scheduled_trips_now`:
`start_dt.time().hour < 5 and now_datetime.time().hour >= 18`. -/
def overnightShift (startOfs : Nat) (now : Instant) : Bool :=
  decide ((startOfs / 3600) % 24 < 5 ∧ 18 ≤ now.tod / 3600)

/-- The window test `start_dt <= now <= end_dt + 15 minutes` of
`get_scheduled_trips_now`, with both bounds moved back one day when the
overnight correction fires; everything is expressed in signed seconds
relative to midnight of `now`'s date. -/
def tripScheduled (b : Nat × Nat) (now : Instant) : Bool :=
  let shift : Int := if overnightShift b.1 now then 86400 else 0
  let startAbs : Int := (b.1 : Int) - shift
  let endAbs : Int := (b.2 : Int) - shift
  decide (startAbs ≤ (now.tod : Int) ∧ (now.tod : Int) ≤ endAbs + 900)

/-- The row loop of `get_scheduled_trips_now` over the bounds of the active
trips; `none` models the `AttributeError` raised when a bound is NaN. -/
def collectScheduled (g : GtfsData) (now : Instant) : List String → Option (List String)
  | [] => some []
  | t :: ts =>
    match collectScheduled g now ts, tripBounds g.stop_times t with
    | some rest, some b => if tripScheduled b now then some (t :: rest) else some rest
    | _, _ => none

/-- `get_scheduled_trips_now` (main.py 120-150, betamain.py 93-123). -/
def get_scheduled_trips_now (g : GtfsData) (now : Instant) : Option (List String) :=
  let services := get_active_service_ids g now.date
  if services.isEmpty then some []
  else collectScheduled g now ((tripIds g.stop_times).filter (isActiveTrip g services))

theorem collectScheduled_isSome (g : GtfsData) (now : Instant) (ts : List String)
    (h : ∀ t ∈ ts, (tripBounds g.stop_times t).isSome = true) :
    ∃ s, collectScheduled g now ts = some s := by
  induction ts with
  | nil => exact ⟨[], rfl⟩
  | cons t ts ih =>
    obtain ⟨s, hs⟩ := ih fun x hx => h x (List.mem_cons_of_mem _ hx)
    obtain ⟨b, hb⟩ := Option.isSome_iff_exists.mp (h t (List.mem_cons_self ..))
    by_cases hw : tripScheduled b now = true
    · exact ⟨t :: s, by simp [collectScheduled, hs, hb, hw]⟩
    · exact ⟨s, by simp [collectScheduled, hs, hb, hw]⟩

theorem collectScheduled_mem (g : GtfsData) (now : Instant) (ts : List String)
    (s : List String) (h : collectScheduled g now ts = some s) (t : String) :
    t ∈ s ↔ t ∈ ts ∧ ∃ b, tripBounds g.stop_times t = some b ∧ tripScheduled b now = true := by
  induction ts generalizing s with
  | nil =>
    obtain rfl : s = [] := by simpa [collectScheduled] using h.symm
    simp
  | cons t' ts ih =>
    simp only [collectScheduled] at h
    cases hrest : collectScheduled g now ts with
    | none => rw [hrest] at h; cases hb : tripBounds g.stop_times t' <;> simp [hb] at h
    | some rest =>
      rw [hrest] at h
      cases hb : tripBounds g.stop_times t' with
      | none => simp [hb] at h
      | some b =>
        rw [hb] at h
        replace h : (if tripScheduled b now = true then some (t' :: rest) else some rest) =
            some s := h
        have ihr := ih rest hrest
        by_cases hw : tripScheduled b now = true
        · rw [if_pos hw] at h
          obtain rfl : t' :: rest = s := by simpa using h
          simp only [List.mem_cons, ihr]
          constructor
          · rintro (rfl | ⟨hm, b', hb', hw'⟩)
            · exact ⟨Or.inl rfl, b, hb, hw⟩
            · exact ⟨Or.inr hm, b', hb', hw'⟩
          · rintro ⟨rfl | hm, b', hb', hw'⟩
            · exact Or.inl rfl
            · exact Or.inr ⟨hm, b', hb', hw'⟩
        · rw [if_neg hw] at h
          obtain rfl : rest = s := by simpa using h
          simp only [List.mem_cons, ihr]
          constructor
          · rintro ⟨hm, b', hb', hw'⟩
            exact ⟨Or.inr hm, b', hb', hw'⟩
          · rintro ⟨rfl | hm, b', hb', hw'⟩
            · rw [hb] at hb'
              obtain rfl : b = b' := by simpa using hb'
              exact absurd hw' hw
            · exact ⟨hm, b', hb', hw'⟩

theorem isActiveTrip_false_of_no_services (g : GtfsData) (t : String)
    (services : List String) (h : services = []) :
    isActiveTrip g services t = false := by
  subst h
  simp [isActiveTrip]

/-- Membership characterisation of `get_scheduled_trips_now` in terms of the
source-level pieces. -/
theorem scheduled_mem (g : GtfsData) (now : Instant) (s : List String)
    (h : get_scheduled_trips_now g now = some s) (t : String) :
    t ∈ s ↔
      isActiveTrip g (get_active_service_ids g now.date) t = true ∧
      t ∈ tripIds g.stop_times ∧
      ∃ b, tripBounds g.stop_times t = some b ∧ tripScheduled b now = true := by
  by_cases hsv : (get_active_service_ids g now.date).isEmpty = true
  · have hs : s = [] := by
      simp only [get_scheduled_trips_now, hsv, if_pos] at h
      simpa using h.symm
    subst hs
    have hempty : get_active_service_ids g now.date = [] := by
      simpa [List.isEmpty_iff] using hsv
    simp [isActiveTrip_false_of_no_services g t _ hempty]
  · simp only [get_scheduled_trips_now, hsv, if_neg, Bool.not_eq_true] at h
    rw [collectScheduled_mem g now _ s h t, List.mem_filter]
    tauto

theorem tripBounds_eq_some_iff (stop_times : List StopTime) (t : String) (st en : Nat) :
    tripBounds stop_times t = some (st, en) ↔
      minList (tripDepartures stop_times t) = some st ∧
      maxList (tripArrivals stop_times t) = some en := by
  cases h1 : minList (tripDepartures stop_times t) with
  | none => simp [tripBounds, h1]
  | some a =>
    cases h2 : maxList (tripArrivals stop_times t) with
    | none => simp [tripBounds, h1, h2]
    | some b => simp [tripBounds, h1, h2]

theorem tripScheduled_iff (st en : Nat) (now : Instant) :
    tripScheduled (st, en) now = true ↔
      (if (st / 3600) % 24 < 5 ∧ 18 ≤ now.tod / 3600 then
        ((st : Int) - 86400 ≤ (now.tod : Int) ∧ (now.tod : Int) ≤ (en : Int) - 86400 + 900)
      else
        ((st : Int) ≤ (now.tod : Int) ∧ (now.tod : Int) ≤ (en : Int) + 900)) := by
  by_cases hc : (st / 3600) % 24 < 5 ∧ 18 ≤ now.tod / 3600
  · simp [tripScheduled, overnightShift, hc]
  · simp [tripScheduled, overnightShift, hc]

/-- Claim C1: for a reference instant and a loaded dataset (whose active
trips all have parseable bounds, otherwise the source raises),
`get_scheduled_trips_now` returns exactly the trip ids that have an active
service, have at least one stop-time row, and whose window
`[min departure, max arrival + 15 min]` — anchored to midnight of now's
date, both bounds moved back one day when the overnight correction applies —
contains the instant; trips with no stop-time rows are never in the result. -/
theorem C1_scheduled_trips (g : GtfsData) (now : Instant)
    (hb : ∀ t ∈ (tripIds g.stop_times).filter
        (isActiveTrip g (get_active_service_ids g now.date)),
      (tripBounds g.stop_times t).isSome = true) :
    ∃ s, get_scheduled_trips_now g now = some s ∧ ∀ t : String,
      t ∈ s ↔
        ((∃ tr ∈ g.trips, tr.trip_id = t ∧
            tr.service_id ∈ get_active_service_ids g now.date) ∧
         (∃ e ∈ g.stop_times, e.trip_id = t) ∧
         ∃ st en,
           (st ∈ tripDepartures g.stop_times t ∧
             ∀ x ∈ tripDepartures g.stop_times t, st ≤ x) ∧
           (en ∈ tripArrivals g.stop_times t ∧
             ∀ x ∈ tripArrivals g.stop_times t, x ≤ en) ∧
           (if (st / 3600) % 24 < 5 ∧ 18 ≤ now.tod / 3600 then
             ((st : Int) - 86400 ≤ (now.tod : Int) ∧
              (now.tod : Int) ≤ (en : Int) - 86400 + 900)
           else
             ((st : Int) ≤ (now.tod : Int) ∧ (now.tod : Int) ≤ (en : Int) + 900))) := by
  obtain ⟨s, hs⟩ : ∃ s, get_scheduled_trips_now g now = some s := by
    unfold get_scheduled_trips_now
    by_cases hsv : (get_active_service_ids g now.date).isEmpty = true
    · exact ⟨[], by simp [hsv]⟩
    · obtain ⟨s, hcol⟩ := collectScheduled_isSome g now _ hb
      exact ⟨s, by simp [hsv, hcol]⟩
  refine ⟨s, hs, fun t => ?_⟩
  rw [scheduled_mem g now s hs t]
  have hact_iff : isActiveTrip g (get_active_service_ids g now.date) t = true ↔
      ∃ tr ∈ g.trips, tr.trip_id = t ∧
        tr.service_id ∈ get_active_service_ids g now.date := by
    simp [isActiveTrip]
  have hmem_iff : t ∈ tripIds g.stop_times ↔ ∃ e ∈ g.stop_times, e.trip_id = t := by
    simp [tripIds]
  have hb_iff : (∃ b, tripBounds g.stop_times t = some b ∧ tripScheduled b now = true) ↔
      ∃ st en,
        (st ∈ tripDepartures g.stop_times t ∧
          ∀ x ∈ tripDepartures g.stop_times t, st ≤ x) ∧
        (en ∈ tripArrivals g.stop_times t ∧
          ∀ x ∈ tripArrivals g.stop_times t, x ≤ en) ∧
        (if (st / 3600) % 24 < 5 ∧ 18 ≤ now.tod / 3600 then
          ((st : Int) - 86400 ≤ (now.tod : Int) ∧
           (now.tod : Int) ≤ (en : Int) - 86400 + 900)
        else
          ((st : Int) ≤ (now.tod : Int) ∧ (now.tod : Int) ≤ (en : Int) + 900)) := by
    constructor
    · rintro ⟨⟨st, en⟩, hbnd, hsch⟩
      obtain ⟨h1, h2⟩ := (tripBounds_eq_some_iff g.stop_times t st en).mp hbnd
      exact ⟨st, en, (minList_eq_some_iff _ st).mp h1, (maxList_eq_some_iff _ en).mp h2,
        (tripScheduled_iff st en now).mp hsch⟩
    · rintro ⟨st, en, h1, h2, h3⟩
      exact ⟨(st, en),
        (tripBounds_eq_some_iff g.stop_times t st en).mpr
          ⟨(minList_eq_some_iff _ st).mpr h1, (maxList_eq_some_iff _ en).mpr h2⟩,
        (tripScheduled_iff st en now).mpr h3⟩
  rw [hact_iff, hmem_iff, hb_iff]

/-- A one-trip dataset: trip T1 of service S1 runs every day of 2024-2026
with a single stop-time row departing 00:58:20 and arriving 01:00:00. -/
def gW : GtfsData :=
  ⟨[⟨"R1", "1"⟩], [⟨"T1", "R1", "S1"⟩], [⟨"T1", 1, some 3600, some 3500, "ST1"⟩],
   [⟨"ST1", "Gare"⟩],
   [⟨"S1", 20240101, 20261231, true, true, true, true, true, true, true⟩], []⟩

/-- Tuesday 2025-06-10 at 01:00:00. -/
def nowW : Instant := ⟨⟨20250610, 1⟩, 3600⟩

theorem C1_scheduled_trips_witness :
    (∀ t ∈ (tripIds gW.stop_times).filter
        (isActiveTrip gW (get_active_service_ids gW nowW.date)),
      (tripBounds gW.stop_times t).isSome = true) ∧
    (∃ s, get_scheduled_trips_now gW nowW = some s ∧ ∀ t : String,
      t ∈ s ↔
        ((∃ tr ∈ gW.trips, tr.trip_id = t ∧
            tr.service_id ∈ get_active_service_ids gW nowW.date) ∧
         (∃ e ∈ gW.stop_times, e.trip_id = t) ∧
         ∃ st en,
           (st ∈ tripDepartures gW.stop_times t ∧
             ∀ x ∈ tripDepartures gW.stop_times t, st ≤ x) ∧
           (en ∈ tripArrivals gW.stop_times t ∧
             ∀ x ∈ tripArrivals gW.stop_times t, x ≤ en) ∧
           (if (st / 3600) % 24 < 5 ∧ 18 ≤ nowW.tod / 3600 then
             ((st : Int) - 86400 ≤ (nowW.tod : Int) ∧
              (nowW.tod : Int) ≤ (en : Int) - 86400 + 900)
           else
             ((st : Int) ≤ (nowW.tod : Int) ∧
              (nowW.tod : Int) ≤ (en : Int) + 900)))) :=
  ⟨by decide, C1_scheduled_trips gW nowW (by decide)⟩

/-- A dataset with one trip T1 whose scheduled window is 00:10-00:40,
active every day of 2024-2026. -/
def gC2 : GtfsData :=
  ⟨[⟨"R1", "1"⟩], [⟨"T1", "R1", "S1"⟩],
   [⟨"T1", 1, some 600, some 600, "A"⟩, ⟨"T1", 2, some 2400, some 2400, "B"⟩],
   [⟨"A", "Arret A"⟩, ⟨"B", "Arret B"⟩],
   [⟨"S1", 20240101, 20261231, true, true, true, true, true, true, true⟩], []⟩

/-- Tuesday 2025-06-10. -/
def dC2 : Date := ⟨20250610, 1⟩

/-- Tuesday 2025-06-10 at 23:00:00. -/
def nowC2 : Instant := ⟨dC2, 82800⟩

/-- Claim C2 is false on the code: with trip T1 active for the query date,
scheduled window 00:10-00:40, and `now` = 23:00 of the same date, the
overnight correction fires and shifts the window to the previous day, so
23:00 is outside `[start, end + 15 min]` and `get_scheduled_trips_now`
returns the empty set — the trip is NOT included, contrary to the claim. -/
theorem C2_counterexample :
    tripBounds gC2.stop_times "T1" = some (600, 2400) ∧
    isActiveTrip gC2 (get_active_service_ids gC2 dC2) "T1" = true ∧
    nowC2.tod = 82800 ∧
    get_scheduled_trips_now gC2 nowC2 = some [] := by decide

/-- Claim C2 (amended): for a trip whose service is active on the query date
and whose scheduled window is 00:10-00:40 of that date,
`get_scheduled_trips_now` queried at 23:00 of the same date EXCLUDES the trip
from the returned scheduled set: the overnight correction fires (start hour 0
is before 05:00 and now hour 23 is at least 18) and shifts the window to the
day before, whose grace-extended end (day-before 00:55) is before 23:00. -/
theorem C2_overnight_excluded (g : GtfsData) (now : Instant) (t : String) (s : List String)
    (_hact : isActiveTrip g (get_active_service_ids g now.date) t = true)
    (hbounds : tripBounds g.stop_times t = some (600, 2400))
    (hnow : now.tod = 82800)
    (hres : get_scheduled_trips_now g now = some s) :
    t ∉ s := by
  intro hmem
  obtain ⟨-, -, b, hb, hsch⟩ := (scheduled_mem g now s hres t).mp hmem
  rw [hbounds] at hb
  obtain rfl : (600, 2400) = b := by simpa using hb
  rw [tripScheduled_iff 600 2400 now, hnow] at hsch
  norm_num at hsch

theorem C2_overnight_excluded_witness : "T1" ∉ ([] : List String) :=
  C2_overnight_excluded gC2 nowC2 "T1" [] (by decide) (by decide) (by decide) (by decide)

/-- Stable insertion into a list ordered by stop sequence. -/
def insertSorted (e : StopTime) : List StopTime → List StopTime
  | [] => [e]
  | x :: xs =>
    if e.stop_sequence < x.stop_sequence then e :: x :: xs else x :: insertSorted e xs

/-- `sort_values('stop_sequence')` on a trip's stop-time rows. -/
def sortBySeq : List StopTime → List StopTime
  | [] => []
  | x :: xs => insertSorted x (sortBySeq xs)

theorem mem_insertSorted (e a : StopTime) (l : List StopTime) :
    a ∈ insertSorted e l ↔ a = e ∨ a ∈ l := by
  induction l with
  | nil => simp [insertSorted]
  | cons x xs ih =>
    simp only [insertSorted]
    split
    · simp
    · simp only [List.mem_cons, ih]
      tauto

theorem mem_sortBySeq (l : List StopTime) (a : StopTime) :
    a ∈ sortBySeq l ↔ a ∈ l := by
  induction l with
  | nil => simp [sortBySeq]
  | cons x xs ih => simp [sortBySeq, mem_insertSorted, ih]

theorem length_insertSorted (e : StopTime) (l : List StopTime) :
    (insertSorted e l).length = l.length + 1 := by
  induction l with
  | nil => rfl
  | cons x xs ih =>
    simp only [insertSorted]
    split
    · simp
    · simp [ih]

theorem sortBySeq_ne_nil (l : List StopTime) (h : l ≠ []) : sortBySeq l ≠ [] := by
  cases l with
  | nil => exact absurd rfl h
  | cons x xs =>
    simp only [sortBySeq]
    intro hh
    have hlen := length_insertSorted x (sortBySeq xs)
    rw [hh] at hlen
    simp at hlen

/-- The lookup of `next_row` and of its stop's display name inside
`get_next_stop`: the row at sequence `s + 1`, resolved in stops.txt. -/
def nextStopName (g : GtfsData) (trip_stops : List StopTime) (s : Nat) : Option String :=
  match trip_stops.find? fun e => decide (e.stop_sequence = s + 1) with
  | some row =>
    (g.stops.find? fun q => decide (q.stop_id = row.stop_id)).map fun q => q.stop_name
  | none => none

/-- `get_next_stop` (main.py 152-173, betamain.py 129-150). -/
def get_next_stop (t : String) (seq? : Option Nat) (g : GtfsData) : String :=
  let trip_stops := sortBySeq (tripEntries g.stop_times t)
  match seq? with
  | none => "Inconnu"
  | some s =>
    if trip_stops.isEmpty then "Inconnu"
    else
      match nextStopName g trip_stops s with
      | some name => name
      | none =>
        if maxList (trip_stops.map fun e => e.stop_sequence) = some s then "Terminus atteint"
        else "Prochain arrêt inconnu"

/-- The row lookup
`stop_times[(trip_id == t) & (stop_sequence == seq)]` (first matching row). -/
def stopTimeLookup (stop_times : List StopTime) (t : String) (seq : Nat) : Option StopTime :=
  stop_times.find? fun e => decide (e.trip_id = t ∧ e.stop_sequence = seq)

/-- `estimate_delay_from_position` (main.py 175-188, betamain.py 152-165);
`position_time` is in signed seconds relative to midnight of `now`'s date,
and `none` models the `TypeError` raised when the matched row has neither an
arrival nor a departure time. -/
def estimate_delay_from_position (t : String) (seq : Nat) (position_time : Int)
    (now : Instant) (g : GtfsData) : Option Int :=
  match stopTimeLookup g.stop_times t seq with
  | none => some 0
  | some row =>
    match (match row.arrival_time with
           | some a => some a
           | none => row.departure_time) with
    | none => none
    | some ofs =>
      let scheduled : Int := (ofs : Int)
      let corrected : Int :=
        if (now.tod : Int) + 10800 < scheduled then scheduled - 86400 else scheduled
      some (position_time - corrected)

/-- Claim C4: for a (trip, stop_sequence) pair with a stop-time row,
`estimate_delay_from_position` takes the row's arrival time if present, else
its departure time, parses it against midnight of now's date, subtracts one
day exactly when the parse is more than 3 hours after now, and returns the
whole-second difference observed minus corrected scheduled time — positive
when late, negative when early, with no clamping. -/
theorem C4_delay_estimate (g : GtfsData) (now : Instant) (t : String) (seq : Nat)
    (pos : Int) (row : StopTime) (ofs : Nat)
    (hrow : stopTimeLookup g.stop_times t seq = some row)
    (hofs : row.arrival_time = some ofs ∨
      (row.arrival_time = none ∧ row.departure_time = some ofs)) :
    ∃ corrected : Int,
      corrected = (if (now.tod : Int) + 10800 < (ofs : Int) then (ofs : Int) - 86400
        else (ofs : Int)) ∧
      estimate_delay_from_position t seq pos now g = some (pos - corrected) ∧
      (0 < pos - corrected ↔ corrected < pos) ∧
      (pos - corrected < 0 ↔ pos < corrected) := by
  refine ⟨_, rfl, ?_, by omega, by omega⟩
  rcases hofs with h | ⟨h1, h2⟩
  · simp [estimate_delay_from_position, hrow, h]
  · simp [estimate_delay_from_position, hrow, h1, h2]

theorem C4_delay_estimate_witness :
    stopTimeLookup gC2.stop_times "T1" 1 = some ⟨"T1", 1, some 600, some 600, "A"⟩ ∧
    (∃ corrected : Int,
      corrected = (if (nowC2.tod : Int) + 10800 < ((600 : Nat) : Int) then
          ((600 : Nat) : Int) - 86400
        else ((600 : Nat) : Int)) ∧
      estimate_delay_from_position "T1" 1 900 nowC2 gC2 = some (900 - corrected) ∧
      (0 < 900 - corrected ↔ corrected < 900) ∧
      (900 - corrected < 0 ↔ 900 < corrected)) :=
  ⟨by decide,
   C4_delay_estimate gC2 nowC2 "T1" 1 900 ⟨"T1", 1, some 600, some 600, "A"⟩ 600
     (by decide) (Or.inl rfl)⟩

/-- A trip with a single stop-time row at sequence 1 whose stop is known. -/
def gC8 : GtfsData :=
  ⟨[], [⟨"T1", "R1", "S1"⟩], [⟨"T1", 1, some 0, some 0, "S"⟩], [⟨"S", "Gare"⟩], [], []⟩

/-- Claim C8 is false on the code: the pair ("T1", 0) has no matching
stop-time row, yet `get_next_stop` returns the real stop name "Gare" (the
entry at sequence 0+1 exists), not an unknown sentinel; the delay part does
hold (0 is returned). -/
theorem C8_counterexample :
    stopTimeLookup gC8.stop_times "T1" 0 = none ∧
    estimate_delay_from_position "T1" 0 0 nowW gC8 = some 0 ∧
    get_next_stop "T1" (some 0) gC8 = "Gare" ∧
    "Gare" ≠ "Inconnu" ∧ "Gare" ≠ "Prochain arrêt inconnu" ∧
    "Gare" ≠ "Terminus atteint" := by decide

/-- Claim C8 (amended): for a (trip, stop_sequence) pair with no matching
stop-time row, `estimate_delay_from_position` returns exactly 0;
`get_next_stop` returns the "Inconnu" sentinel when the sequence is absent
or the trip has no stop-time rows, and for an unmatched present sequence on
a trip with rows it returns either the stop name of the row at sequence + 1
(when such a row exists and its stop is in the stops table) or the
"Prochain arrêt inconnu" sentinel; neither operation raises. -/
theorem C8_unmatched (g : GtfsData) (t : String) (seq : Nat) (pos : Int) (now : Instant)
    (hmiss : stopTimeLookup g.stop_times t seq = none) :
    estimate_delay_from_position t seq pos now g = some 0 ∧
    get_next_stop t none g = "Inconnu" ∧
    (tripEntries g.stop_times t = [] → get_next_stop t (some seq) g = "Inconnu") ∧
    (tripEntries g.stop_times t ≠ [] →
      (∃ row ∈ tripEntries g.stop_times t, row.stop_sequence = seq + 1 ∧
        ∃ q ∈ g.stops, q.stop_id = row.stop_id ∧
          get_next_stop t (some seq) g = q.stop_name) ∨
      get_next_stop t (some seq) g = "Prochain arrêt inconnu") := by
  have hnotin : ∀ e ∈ g.stop_times, ¬ (e.trip_id = t ∧ e.stop_sequence = seq) := by
    intro e he hc
    have := List.find?_eq_none.mp hmiss e he
    simp [hc.1, hc.2] at this
  refine ⟨by simp [estimate_delay_from_position, hmiss], rfl, ?_, ?_⟩
  · intro hnil
    simp [get_next_stop, hnil, sortBySeq]
  · intro hne
    have hsorted_ne := sortBySeq_ne_nil _ hne
    have hterm :
        maxList ((sortBySeq (tripEntries g.stop_times t)).map
          fun e => e.stop_sequence) ≠ some seq := by
      intro hmax
      obtain ⟨hmem, -⟩ := (maxList_eq_some_iff _ seq).mp hmax
      obtain ⟨e, hms, hseq⟩ := List.mem_map.mp hmem
      have he : e ∈ tripEntries g.stop_times t := (mem_sortBySeq _ e).mp hms
      have het : e.trip_id = t := by
        have := List.mem_filter.mp he
        simpa using this.2
      exact hnotin e (List.mem_filter.mp he).1 ⟨het, hseq⟩
    have hne' : ¬ ((sortBySeq (tripEntries g.stop_times t)).isEmpty = true) := by
      simpa [List.isEmpty_iff] using hsorted_ne
    cases hnn : nextStopName g (sortBySeq (tripEntries g.stop_times t)) seq with
    | none =>
      have hval : get_next_stop t (some seq) g = "Prochain arrêt inconnu" := by
        simp only [get_next_stop]
        rw [if_neg hne']
        simp only [hnn]
        rw [if_neg hterm]
      exact Or.inr hval
    | some name =>
      have hval : get_next_stop t (some seq) g = name := by
        simp only [get_next_stop]
        rw [if_neg hne']
        simp only [hnn]
      simp only [nextStopName] at hnn
      cases hfind : (sortBySeq (tripEntries g.stop_times t)).find?
          (fun e => decide (e.stop_sequence = seq + 1)) with
      | none => rw [hfind] at hnn; simp at hnn
      | some row =>
        rw [hfind] at hnn
        replace hnn : Option.map (fun q => q.stop_name)
            (List.find? (fun q => decide (q.stop_id = row.stop_id)) g.stops) = some name := hnn
        have hrowmem : row ∈ tripEntries g.stop_times t :=
          (mem_sortBySeq _ row).mp (List.mem_of_find?_eq_some hfind)
        have hrowseq : row.stop_sequence = seq + 1 := by
          have := List.find?_some hfind
          simpa using this
        cases hstop : g.stops.find? (fun q => decide (q.stop_id = row.stop_id)) with
        | none => rw [hstop] at hnn; simp at hnn
        | some q =>
          rw [hstop] at hnn
          have hqmem : q ∈ g.stops := List.mem_of_find?_eq_some hstop
          have hqid : q.stop_id = row.stop_id := by
            have := List.find?_some hstop
            simpa using this
          have hname : name = q.stop_name := by simpa using hnn.symm
          exact Or.inl ⟨row, hrowmem, hrowseq, q, hqmem, hqid, by rw [hval, hname]⟩

theorem C8_unmatched_witness :
    estimate_delay_from_position "T1" 0 0 nowW gC8 = some 0 ∧
    get_next_stop "T1" none gC8 = "Inconnu" ∧
    (tripEntries gC8.stop_times "T1" = [] → get_next_stop "T1" (some 0) gC8 = "Inconnu") ∧
    (tripEntries gC8.stop_times "T1" ≠ [] →
      (∃ row ∈ tripEntries gC8.stop_times "T1", row.stop_sequence = 0 + 1 ∧
        ∃ q ∈ gC8.stops, q.stop_id = row.stop_id ∧
          get_next_stop "T1" (some 0) gC8 = q.stop_name) ∨
      get_next_stop "T1" (some 0) gC8 = "Prochain arrêt inconnu") :=
  C8_unmatched gC8 "T1" 0 0 nowW (by decide)

/-- Decoded GTFS-realtime trip descriptor: the fields read by the source,
with `none` for a protobuf field whose `HasField` test is false. -/
structure TripDescriptor where
  trip_id : Option String
  route_id : Option String
deriving DecidableEq

/-- Decoded vehicle descriptor; `id = none` models an absent vehicle
identifier (which protobuf surfaces as the empty-string default). -/
structure VehicleDescriptor where
  id : Option String
  label : Option String
deriving DecidableEq

/-- Decoded `VehiclePosition` payload; the feed timestamp is converted to
signed seconds relative to midnight of the cycle's reference date. -/
structure VehiclePosition where
  trip : TripDescriptor
  vehicle : VehicleDescriptor
  current_status : Nat
  timestamp : Option Int
  current_stop_sequence : Option Nat
  occupancy_status : Option Nat
deriving DecidableEq

/-- Decoded feed entity; `vehicle = none` when `entity.HasField('vehicle')`
is false. -/
structure FeedEntity where
  vehicle : Option VehiclePosition
deriving DecidableEq

/-- The per-vehicle record stored by `analyze_realtime_feed`. -/
structure VehicleRecord where
  label : String
  route_id : String
  trip_id : String
  status : String
  timestamp : Int
  delay_seconds : Int
  occupancy : String
  next_stop : String
deriving DecidableEq

/-- `status_map.get(status_code, "INCONNU")`. -/
def statusStr (c : Nat) : String :=
  if c = 0 then "APPROCHE"
  else if c = 1 then "À L\u0027ARRÊT"
  else if c = 2 then "EN ROUTE VERS"
  else "INCONNU"

/-- `occupancy_map.get(occupancy_code, "Non renseigné")`. -/
def occupancyStr (c? : Option Nat) : String :=
  match c? with
  | none => "Non renseigné"
  | some c =>
    if c = 0 then "VIDE"
    else if c = 1 then "PEU DE PLACES LIBRES"
    else if c = 2 then "PEU DE PLACES ASSISES"
    else if c = 3 then "BON NOMBRE DE PLACES"
    else if c = 4 then "PRESQUE PLEIN"
    else if c = 5 then "PLEIN DÉBOUT"
    else if c = 6 then "COMPLET"
    else "Non renseigné"

/-- `label = v.vehicle.label if HasField('label') else vehicle_id`, where the
vehicle id itself defaults to the protobuf empty string. -/
def labelOf (v : VehiclePosition) : String :=
  v.vehicle.label.getD (v.vehicle.id.getD "")

/-- Python dict assignment `vehicles[vehicle_id] = record` (in-place update
of an existing key, else append). -/
def upsert (k : String) (r : VehicleRecord) :
    List (String × VehicleRecord) → List (String × VehicleRecord)
  | [] => [(k, r)]
  | (k', r') :: rest => if k' = k then (k, r) :: rest else (k', r') :: upsert k r rest

/-- Python `set.add`. -/
def insertNew (x : String) (l : List String) : List String :=
  if x ∈ l then l else l ++ [x]

/-- `vehicle_to_trips[label].add(trip_id)` on a `defaultdict(set)`. -/
def addLabelTrip (L t : String) :
    List (String × List String) → List (String × List String)
  | [] => [(L, insertNew t [])]
  | (k, v) :: rest =>
    if k = L then (k, insertNew t v) :: rest else (k, v) :: addLabelTrip L t rest

/-- Dictionary lookup on the label-to-trips map. -/
def lookupTrips (L : String) : List (String × List String) → Option (List String)
  | [] => none
  | (k, v) :: rest => if k = L then some v else lookupTrips L rest

/-- The accumulator of the entity loop of `analyze_realtime_feed`. -/
structure AnalyzeState where
  vehicles : List (String × VehicleRecord)
  observed : List String
  labelTrips : List (String × List String)
deriving DecidableEq

/-- One iteration of the entity loop of `analyze_realtime_feed`
(main.py 204-248, betamain.py 193-241); `none` models a raising iteration
(delay estimation on a row with no times). -/
def processEntity (g : GtfsData) (now : Instant) (st : AnalyzeState) (e : FeedEntity) :
    Option AnalyzeState :=
  match e.vehicle with
  | none => some st
  | some v =>
    match v.trip.trip_id with
    | none => some st
    | some trip_id =>
      let vehicle_id := v.vehicle.id.getD ""
      let label := v.vehicle.label.getD vehicle_id
      let route_id := v.trip.route_id.getD "?"
      let status := statusStr v.current_status
      let pos_time := v.timestamp.getD (now.tod : Int)
      let seq := v.current_stop_sequence
      let occupancy := occupancyStr v.occupancy_status
      let delay? : Option Int :=
        match seq with
        | none => some 0
        | some s => estimate_delay_from_position trip_id s pos_time now g
      match delay? with
      | none => none
      | some delay_sec =>
        let next_stop := get_next_stop trip_id seq g
        some ⟨upsert vehicle_id
                ⟨label, route_id, trip_id, status, pos_time, delay_sec, occupancy, next_stop⟩
                st.vehicles,
              insertNew trip_id st.observed,
              addLabelTrip label trip_id st.labelTrips⟩

/-- The entity loop of `analyze_realtime_feed`. -/
def runFeed (g : GtfsData) (now : Instant) :
    List FeedEntity → AnalyzeState → Option AnalyzeState
  | [], st => some st
  | e :: es, st =>
    match processEntity g now st e with
    | none => none
    | some st' => runFeed g now es st'

/-- `analyze_realtime_feed` (main.py 198-250, betamain.py 187-244): the
vehicle-record map, the observed-trip set, and the duplicates map
`{label: trips for label, trips in vehicle_to_trips.items() if len(trips) > 1}`. -/
def analyze_realtime_feed (feed : List FeedEntity) (now : Instant) (g : GtfsData) :
    Option (List (String × VehicleRecord) × List String × List (String × List String)) :=
  (runFeed g now feed ⟨[], [], []⟩).map fun st =>
    (st.vehicles, st.observed, st.labelTrips.filter fun p => decide (1 < p.2.length))

/-- The trip id that one entity contributes under label `L`: some trip id
when the entity is valid and carries that label, else none (observation
function used to state the duplicate-detection claims). -/
def entityReport (L : String) (e : FeedEntity) : Option String :=
  match e.vehicle with
  | none => none
  | some v =>
    match v.trip.trip_id with
    | none => none
    | some t => if labelOf v = L then some t else none

/-- The trip ids that the valid entities carrying label `L` report, in feed
order. -/
def labelReports (feed : List FeedEntity) (L : String) : List String :=
  feed.filterMap (entityReport L)

theorem entityReport_eq_some_iff (L : String) (e : FeedEntity) (x : String) :
    entityReport L e = some x ↔
      ∃ v, e.vehicle = some v ∧ v.trip.trip_id = some x ∧ labelOf v = L := by
  cases hv : e.vehicle with
  | none =>
    simp [entityReport, hv]
  | some v =>
    cases ht : v.trip.trip_id with
    | none => simp [entityReport, hv, ht]
    | some t =>
      by_cases hL : labelOf v = L
      · simp only [entityReport, hv, ht, if_pos hL, Option.some_inj]
        constructor
        · rintro rfl; exact ⟨v, rfl, ht, hL⟩
        · rintro ⟨v', hv', ht', hL'⟩
          obtain rfl : v = v' := hv'
          rw [ht] at ht'
          exact Option.some_inj.mp ht'
      · simp only [entityReport, hv, ht, if_neg hL]
        constructor
        · rintro h; cases h
        · rintro ⟨v', hv', ht', hL'⟩
          obtain rfl : v = v' := Option.some_inj.mp hv'
          exact absurd hL' hL

theorem processEntity_skip (g : GtfsData) (now : Instant) (st : AnalyzeState) (e : FeedEntity)
    (h : e.vehicle = none ∨ ∃ v, e.vehicle = some v ∧ v.trip.trip_id = none) :
    processEntity g now st e = some st := by
  rcases h with h | ⟨v, hv, ht⟩
  · simp [processEntity, h]
  · simp [processEntity, hv, ht]

theorem processEntity_cases (g : GtfsData) (now : Instant) (st st' : AnalyzeState)
    (e : FeedEntity) (h : processEntity g now st e = some st') :
    (st' = st ∧ (e.vehicle = none ∨ ∃ v, e.vehicle = some v ∧ v.trip.trip_id = none)) ∨
    (∃ v t, e.vehicle = some v ∧ v.trip.trip_id = some t ∧
      st'.labelTrips = addLabelTrip (labelOf v) t st.labelTrips ∧
      st'.observed = insertNew t st.observed ∧
      ∃ r : VehicleRecord, r.trip_id = t ∧
        st'.vehicles = upsert (v.vehicle.id.getD "") r st.vehicles) := by
  cases hv : e.vehicle with
  | none =>
    left
    rw [processEntity_skip g now st e (Or.inl hv)] at h
    exact ⟨(Option.some_inj.mp h).symm, Or.inl rfl⟩
  | some v =>
    cases ht : v.trip.trip_id with
    | none =>
      left
      rw [processEntity_skip g now st e (Or.inr ⟨v, hv, ht⟩)] at h
      exact ⟨(Option.some_inj.mp h).symm, Or.inr ⟨v, rfl, ht⟩⟩
    | some t =>
      right
      simp only [processEntity, hv, ht] at h
      cases hd : (match v.current_stop_sequence with
          | none => some 0
          | some s =>
            estimate_delay_from_position t s (v.timestamp.getD (now.tod : Int)) now g) with
      | none => rw [hd] at h; simp at h
      | some d =>
        rw [hd] at h
        replace h : some (⟨upsert (v.vehicle.id.getD "")
            ⟨v.vehicle.label.getD (v.vehicle.id.getD ""), v.trip.route_id.getD "?", t,
              statusStr v.current_status, v.timestamp.getD (now.tod : Int), d,
              occupancyStr v.occupancy_status,
              get_next_stop t v.current_stop_sequence g⟩ st.vehicles,
            insertNew t st.observed,
            addLabelTrip (v.vehicle.label.getD (v.vehicle.id.getD "")) t st.labelTrips⟩ :
              AnalyzeState) = some st' := h
        obtain rfl := (Option.some_inj.mp h).symm
        exact ⟨v, t, rfl, ht, rfl, rfl, _, rfl, rfl⟩

theorem mem_insertNew (x y : String) (l : List String) :
    x ∈ insertNew y l ↔ x = y ∨ x ∈ l := by
  unfold insertNew
  split
  · constructor
    · exact fun h => Or.inr h
    · rintro (rfl | h) <;> assumption
  · simp only [List.mem_append, List.mem_singleton]
    tauto

theorem insertNew_nodup (y : String) (l : List String) (h : l.Nodup) :
    (insertNew y l).Nodup := by
  unfold insertNew
  split
  · exact h
  · rename_i hy
    simpa [List.nodup_append] using ⟨h, fun hmem => hy hmem⟩

theorem mem_upsert (k : String) (r : VehicleRecord) (l : List (String × VehicleRecord))
    (p : String × VehicleRecord) (hp : p ∈ upsert k r l) : p = (k, r) ∨ p ∈ l := by
  induction l with
  | nil => simpa [upsert] using hp
  | cons x xs ih =>
    unfold upsert at hp
    split at hp
    · rcases List.mem_cons.mp hp with rfl | hp
      · exact Or.inl rfl
      · exact Or.inr (List.mem_cons_of_mem _ hp)
    · rcases List.mem_cons.mp hp with rfl | hp
      · exact Or.inr (List.mem_cons_self ..)
      · rcases ih hp with h | h
        · exact Or.inl h
        · exact Or.inr (List.mem_cons_of_mem _ h)

theorem mem_addLabelTrip (L t : String) (m : List (String × List String))
    (q : String × List String) (hq : q ∈ addLabelTrip L t m) :
    q ∈ m ∨ ∃ v0, q = (L, insertNew t v0) ∧ (v0 = [] ∨ (L, v0) ∈ m) := by
  induction m with
  | nil =>
    right
    refine ⟨[], ?_, Or.inl rfl⟩
    simpa [addLabelTrip] using hq
  | cons x xs ih =>
    obtain ⟨k, v⟩ := x
    unfold addLabelTrip at hq
    split at hq
    · rename_i hk
      subst hk
      rcases List.mem_cons.mp hq with rfl | hq
      · exact Or.inr ⟨v, rfl, Or.inr (List.mem_cons_self ..)⟩
      · exact Or.inl (List.mem_cons_of_mem _ hq)
    · rcases List.mem_cons.mp hq with rfl | hq
      · exact Or.inl (List.mem_cons_self ..)
      · rcases ih hq with h | ⟨v0, hv0, hm⟩
        · exact Or.inl (List.mem_cons_of_mem _ h)
        · refine Or.inr ⟨v0, hv0, ?_⟩
          rcases hm with h | h
          · exact Or.inl h
          · exact Or.inr (List.mem_cons_of_mem _ h)

theorem lookupTrips_addLabelTrip_same (L t : String) (m : List (String × List String)) :
    lookupTrips L (addLabelTrip L t m) =
      some (insertNew t ((lookupTrips L m).getD [])) := by
  induction m with
  | nil => simp [addLabelTrip, lookupTrips]
  | cons x xs ih =>
    obtain ⟨k, v⟩ := x
    by_cases hk : k = L
    · subst hk
      simp [addLabelTrip, lookupTrips]
    · simp [addLabelTrip, lookupTrips, hk, ih]

theorem lookupTrips_addLabelTrip_ne (L L' t : String) (m : List (String × List String))
    (hne : L' ≠ L) :
    lookupTrips L (addLabelTrip L' t m) = lookupTrips L m := by
  induction m with
  | nil => simp [addLabelTrip, lookupTrips, hne]
  | cons x xs ih =>
    obtain ⟨k, v⟩ := x
    by_cases hk : k = L'
    · subst hk
      simp [addLabelTrip, lookupTrips, hne]
    · by_cases hkL : k = L
      · subst hkL
        simp [addLabelTrip, lookupTrips, hk]
      · simp [addLabelTrip, lookupTrips, hk, hkL, ih]

/-- The keys of the label-to-trips map. -/
def keysOf (m : List (String × List String)) : List String := m.map fun p => p.1

theorem mem_keysOf_addLabelTrip (L t K : String) (m : List (String × List String)) :
    K ∈ keysOf (addLabelTrip L t m) ↔ K = L ∨ K ∈ keysOf m := by
  induction m with
  | nil => simp [addLabelTrip, keysOf]
  | cons x xs ih =>
    obtain ⟨k, v⟩ := x
    by_cases hk : k = L
    · subst hk
      simp [addLabelTrip, keysOf]
    · simp only [addLabelTrip, if_neg hk, keysOf, List.map_cons, List.mem_cons]
      rw [show (List.map (fun p => p.1) (addLabelTrip L t xs)) =
        keysOf (addLabelTrip L t xs) from rfl, ih]
      simp [keysOf]
      tauto

theorem nodup_keysOf_addLabelTrip (L t : String) (m : List (String × List String))
    (h : (keysOf m).Nodup) : (keysOf (addLabelTrip L t m)).Nodup := by
  induction m with
  | nil => simp [addLabelTrip, keysOf]
  | cons x xs ih =>
    obtain ⟨k, v⟩ := x
    simp only [keysOf, List.map_cons, List.nodup_cons] at h
    by_cases hk : k = L
    · subst hk
      simpa [addLabelTrip, keysOf, List.nodup_cons] using h
    · simp only [addLabelTrip, if_neg hk, keysOf, List.map_cons, List.nodup_cons]
      refine ⟨?_, ih h.2⟩
      intro hmem
      rcases (mem_keysOf_addLabelTrip L t k xs).mp hmem with rfl | hmem
      · exact hk rfl
      · exact h.1 hmem

theorem lookupTrips_none_of_not_mem_keys (L : String) (m : List (String × List String))
    (h : L ∉ keysOf m) : lookupTrips L m = none := by
  induction m with
  | nil => rfl
  | cons x xs ih =>
    obtain ⟨k, v⟩ := x
    simp only [keysOf, List.map_cons, List.mem_cons] at h
    push_neg at h
    have hkL : ¬ (k = L) := fun hk => h.1 hk.symm
    simp only [lookupTrips, if_neg hkL]
    exact ih h.2

theorem filter_key_of_lookupTrips_none (L : String) (m : List (String × List String))
    (h : lookupTrips L m = none) :
    m.filter (fun p => decide (p.1 = L)) = [] := by
  induction m with
  | nil => rfl
  | cons x xs ih =>
    obtain ⟨k, v⟩ := x
    simp only [lookupTrips] at h
    split at h
    · cases h
    · rename_i hk
      simp only [List.filter_cons, decide_eq_true_eq]
      rw [if_neg (by simpa using hk)]
      exact ih h

theorem filter_key_of_lookupTrips_some (L : String) (m : List (String × List String))
    (v : List String) (hnd : (keysOf m).Nodup) (h : lookupTrips L m = some v) :
    m.filter (fun p => decide (p.1 = L)) = [(L, v)] := by
  induction m with
  | nil => cases h
  | cons x xs ih =>
    obtain ⟨k, w⟩ := x
    simp only [keysOf, List.map_cons, List.nodup_cons] at hnd
    simp only [lookupTrips] at h
    split at h
    · rename_i hk
      subst hk
      obtain rfl : w = v := Option.some_inj.mp h
      have hnone : lookupTrips k xs = none :=
        lookupTrips_none_of_not_mem_keys k xs hnd.1
      simp [List.filter_cons, filter_key_of_lookupTrips_none k xs hnone]
    · rename_i hk
      simp only [List.filter_cons, decide_eq_true_eq]
      rw [if_neg (by simpa using hk)]
      exact ih hnd.2 h

theorem filter_swap {α : Type} (p q : α → Bool) (l : List α) :
    (l.filter p).filter q = (l.filter q).filter p := by
  induction l with
  | nil => rfl
  | cons a l ih =>
    by_cases hp : p a <;> by_cases hq : q a <;>
      simp [List.filter_cons, hp, hq, ih]

theorem mem_foldl_insertNew (l : List String) (acc : List String) (x : String) :
    x ∈ l.foldl (fun a t => insertNew t a) acc ↔ x ∈ acc ∨ x ∈ l := by
  induction l generalizing acc with
  | nil => simp
  | cons t l ih =>
    simp only [List.foldl_cons, ih, mem_insertNew, List.mem_cons]
    tauto

theorem nodup_foldl_insertNew (l : List String) (acc : List String) (h : acc.Nodup) :
    (l.foldl (fun a t => insertNew t a) acc).Nodup := by
  induction l generalizing acc with
  | nil => exact h
  | cons t l ih => exact ih _ (insertNew_nodup t acc h)

theorem mem_labelReports (feed : List FeedEntity) (L x : String) :
    x ∈ labelReports feed L ↔
      ∃ e ∈ feed, ∃ v, e.vehicle = some v ∧ v.trip.trip_id = some x ∧ labelOf v = L := by
  unfold labelReports
  rw [List.mem_filterMap]
  constructor
  · rintro ⟨e, he, hfe⟩
    exact ⟨e, he, (entityReport_eq_some_iff L e x).mp hfe⟩
  · rintro ⟨e, he, hv⟩
    exact ⟨e, he, (entityReport_eq_some_iff L e x).mpr hv⟩

theorem runFeed_skip_middle (g : GtfsData) (now : Instant) (e : FeedEntity)
    (h : e.vehicle = none ∨ ∃ v, e.vehicle = some v ∧ v.trip.trip_id = none)
    (pre post : List FeedEntity) (st : AnalyzeState) :
    runFeed g now (pre ++ e :: post) st = runFeed g now (pre ++ post) st := by
  induction pre generalizing st with
  | nil =>
    simp only [List.nil_append, runFeed, processEntity_skip g now st e h]
  | cons p pre ih =>
    simp only [List.cons_append, runFeed]
    cases processEntity g now st p with
    | none => rfl
    | some st1 => exact ih st1

theorem runFeed_labelTrips (g : GtfsData) (now : Instant) (es : List FeedEntity)
    (st st' : AnalyzeState) (L : String) (h : runFeed g now es st = some st') :
    (lookupTrips L st'.labelTrips).getD [] =
      (labelReports es L).foldl (fun a t => insertNew t a)
        ((lookupTrips L st.labelTrips).getD []) ∧
    (lookupTrips L st'.labelTrips = none ↔
      (lookupTrips L st.labelTrips = none ∧ labelReports es L = [])) := by
  induction es generalizing st with
  | nil =>
    obtain rfl : st = st' := Option.some_inj.mp (by simpa [runFeed] using h)
    simp [labelReports]
  | cons e es ih =>
    simp only [runFeed] at h
    cases hp : processEntity g now st e with
    | none => rw [hp] at h; cases h
    | some st1 =>
      rw [hp] at h
      have ihr := ih st1 h
      rcases processEntity_cases g now st st1 e hp with
        ⟨rfl, hskip⟩ | ⟨v, t, hv, ht, hlt, hobs, -⟩
      · have hrep : labelReports (e :: es) L = labelReports es L := by
          rcases hskip with h0 | ⟨v, hv, ht⟩
          · simp [labelReports, List.filterMap_cons, entityReport, h0]
          · simp [labelReports, List.filterMap_cons, entityReport, hv, ht]
        rw [hrep]
        exact ihr
      · by_cases hL : labelOf v = L
        · have hrep : labelReports (e :: es) L = t :: labelReports es L := by
            simp [labelReports, List.filterMap_cons, entityReport, hv, ht, hL]
          rw [hrep]
          subst hL
          rw [hlt, lookupTrips_addLabelTrip_same] at ihr
          constructor
          · rw [ihr.1]
            simp [List.foldl_cons]
          · rw [ihr.2]
            constructor
            · rintro ⟨h1, h2⟩; cases h1
            · rintro ⟨h1, h2⟩; cases h2
        · have hrep : labelReports (e :: es) L = labelReports es L := by
            simp [labelReports, List.filterMap_cons, entityReport, hv, ht, hL]
          rw [hrep]
          rw [hlt, lookupTrips_addLabelTrip_ne L (labelOf v) t st.labelTrips hL] at ihr
          exact ihr

/-- Invariants maintained by the entity loop: every stored vehicle's trip is
observed, every per-label trip list is duplicate-free and observed, and the
label keys are unique. -/
def stateInv (st : AnalyzeState) : Prop :=
  (∀ p ∈ st.vehicles, p.2.trip_id ∈ st.observed) ∧
  (∀ q ∈ st.labelTrips, q.2.Nodup ∧ ∀ x ∈ q.2, x ∈ st.observed) ∧
  (keysOf st.labelTrips).Nodup

theorem processEntity_inv (g : GtfsData) (now : Instant) (st st' : AnalyzeState)
    (e : FeedEntity) (hp : processEntity g now st e = some st')
    (hinv : stateInv st) : stateInv st' := by
  rcases processEntity_cases g now st st' e hp with
    ⟨rfl, -⟩ | ⟨v, t, -, -, hlt, hobs, r, hr, hveh⟩
  · exact hinv
  · obtain ⟨inv1, inv2, inv3⟩ := hinv
    refine ⟨?_, ?_, ?_⟩
    · intro p hp'
      rw [hveh] at hp'
      rw [hobs, mem_insertNew]
      rcases mem_upsert _ _ _ p hp' with rfl | hp''
      · exact Or.inl hr
      · exact Or.inr (inv1 p hp'')
    · intro q hq
      rw [hlt] at hq
      rw [hobs]
      rcases mem_addLabelTrip _ _ _ q hq with hq' | ⟨v0, rfl, hv0⟩
      · obtain ⟨hnd, hsub⟩ := inv2 q hq'
        exact ⟨hnd, fun x hx => (mem_insertNew x t _).mpr (Or.inr (hsub x hx))⟩
      · have hv0nd : v0.Nodup := by
          rcases hv0 with rfl | hmem
          · exact List.nodup_nil
          · exact (inv2 _ hmem).1
        have hv0sub : ∀ x ∈ v0, x ∈ st.observed := by
          rcases hv0 with rfl | hmem
          · intro x hx; cases hx
          · exact (inv2 _ hmem).2
        refine ⟨insertNew_nodup _ _ hv0nd, ?_⟩
        intro x hx
        rcases (mem_insertNew x t v0).mp hx with rfl | hx'
        · exact (mem_insertNew x x _).mpr (Or.inl rfl)
        · exact (mem_insertNew x t _).mpr (Or.inr (hv0sub x hx'))
    · rw [hlt]
      exact nodup_keysOf_addLabelTrip _ _ _ inv3

theorem runFeed_inv (g : GtfsData) (now : Instant) (es : List FeedEntity)
    (st st' : AnalyzeState) (h : runFeed g now es st = some st')
    (hinv : stateInv st) : stateInv st' := by
  induction es generalizing st with
  | nil =>
    obtain rfl : st = st' := Option.some_inj.mp (by simpa [runFeed] using h)
    exact hinv
  | cons e es ih =>
    simp only [runFeed] at h
    cases hp : processEntity g now st e with
    | none => rw [hp] at h; cases h
    | some st1 =>
      rw [hp] at h
      exact ih st1 h (processEntity_inv g now st st1 e hp hinv)

theorem one_lt_length_of_two_mem (l : List String) (a b : String) (ha : a ∈ l)
    (hb : b ∈ l) (hab : a ≠ b) : 1 < l.length := by
  cases l with
  | nil => cases ha
  | cons x xs =>
    cases xs with
    | nil =>
      simp only [List.mem_singleton] at ha hb
      exact absurd (ha.trans hb.symm) hab
    | cons y ys =>
      simp only [List.length_cons]
      omega

theorem length_le_one_of_all_eq (l : List String) (t0 : String) (hnd : l.Nodup)
    (h : ∀ x ∈ l, x = t0) : l.length ≤ 1 := by
  cases l with
  | nil => simp
  | cons x xs =>
    cases xs with
    | nil => simp
    | cons y ys =>
      exfalso
      have hx : x = t0 := h x (List.mem_cons_self ..)
      have hy : y = t0 := h y (List.mem_cons_of_mem _ (List.mem_cons_self ..))
      rw [List.nodup_cons] at hnd
      exact hnd.1 (by rw [hx.trans hy.symm]; exact List.mem_cons_self ..)

/-- A GTFS dataset with all tables empty. -/
def gEmpty : GtfsData := ⟨[], [], [], [], [], []⟩

/-- Tuesday 2025-06-10 at 00:00:00. -/
def now0 : Instant := ⟨⟨20250610, 1⟩, 0⟩

/-- An entity with a vehicle position and a trip id but NO vehicle
identifier (and no label). -/
def vpC6 : VehiclePosition := ⟨⟨some "T1", none⟩, ⟨none, none⟩, 0, none, none, none⟩

def entC6 : FeedEntity := ⟨some vpC6⟩

/-- The record the source stores for `entC6`, keyed by the protobuf default
empty-string vehicle id. -/
def recC6 : VehicleRecord := ⟨"", "?", "T1", "APPROCHE", 0, 0, "Non renseigné", "Inconnu"⟩

/-- Claim C6 is false on the code: an entity that LACKS VEHICLE
IDENTIFICATION (its vehicle descriptor has no id) but carries a trip id is
not skipped — `analyze_realtime_feed` stores a record for it under the
empty-string vehicle id and adds its trip to the observed set, contrary to
the claim that it contributes no entry and no member. -/
theorem C6_counterexample :
    (entC6.vehicle.map fun v => v.vehicle.id) = some none ∧
    analyze_realtime_feed [entC6] now0 gEmpty = some ([("", recC6)], ["T1"], []) := by
  decide

/-- Claim C6 (amended): every entity that lacks the vehicle-position payload
or whose trip descriptor lacks a trip id is skipped silently: removing it
from the feed leaves the vehicle map, the observed-trip set and the
duplicates map unchanged, and no error arises from it. An entity that
carries a trip id but lacks a vehicle identifier is NOT skipped: it is
processed under the protobuf default empty-string vehicle id. -/
theorem C6_partial_entities_skipped (g : GtfsData) (now : Instant)
    (pre post : List FeedEntity) (e : FeedEntity)
    (h : e.vehicle = none ∨ ∃ v, e.vehicle = some v ∧ v.trip.trip_id = none) :
    analyze_realtime_feed (pre ++ e :: post) now g =
      analyze_realtime_feed (pre ++ post) now g := by
  unfold analyze_realtime_feed
  rw [runFeed_skip_middle g now e h pre post]

theorem C6_partial_entities_skipped_witness :
    analyze_realtime_feed [⟨none⟩] now0 gEmpty = analyze_realtime_feed [] now0 gEmpty :=
  C6_partial_entities_skipped gEmpty now0 [] [] ⟨none⟩ (Or.inl rfl)

/-- Claim C9: in the returned duplicates map, a label carried by two valid
entities with distinct trip ids has exactly one entry, whose value contains
both trip ids; a label all of whose reports carry one same trip id has no
entry. -/
theorem C9_duplicates (feed : List FeedEntity) (now : Instant) (g : GtfsData)
    (vs : List (String × VehicleRecord)) (obs : List String)
    (dups : List (String × List String)) (L : String)
    (hres : analyze_realtime_feed feed now g = some (vs, obs, dups)) :
    (∀ t1 t2 : String, t1 ∈ labelReports feed L → t2 ∈ labelReports feed L → t1 ≠ t2 →
      ∃ l, dups.filter (fun p => decide (p.1 = L)) = [(L, l)] ∧ t1 ∈ l ∧ t2 ∈ l) ∧
    (∀ t0 : String, (∀ x ∈ labelReports feed L, x = t0) →
      dups.filter (fun p => decide (p.1 = L)) = []) := by
  unfold analyze_realtime_feed at hres
  cases hr : runFeed g now feed ⟨[], [], []⟩ with
  | none => rw [hr] at hres; cases hres
  | some stf =>
    rw [hr] at hres
    simp only [Option.map_some'] at hres
    have heq := Option.some_inj.mp hres
    have hdups : stf.labelTrips.filter (fun p => decide (1 < p.2.length)) = dups :=
      congrArg (fun x => x.2.2) heq
    have hlk := runFeed_labelTrips g now feed _ stf L hr
    simp only [lookupTrips, Option.getD_none] at hlk
    obtain ⟨h1, h2⟩ := hlk
    have hinv := runFeed_inv g now feed _ stf hr ⟨by simp, by simp, by simp [keysOf]⟩
    obtain ⟨-, -, inv3⟩ := hinv
    constructor
    · intro t1 t2 ht1 ht2 hne
      have hrep_ne : labelReports feed L ≠ [] := by
        intro hh
        rw [hh] at ht1
        cases ht1
      obtain ⟨l0, hl0⟩ : ∃ l0, lookupTrips L stf.labelTrips = some l0 := by
        cases hl : lookupTrips L stf.labelTrips with
        | none => exact absurd (h2.mp hl).2 hrep_ne
        | some l0 => exact ⟨l0, rfl⟩
      have hl0val : l0 = (labelReports feed L).foldl (fun a t => insertNew t a) [] := by
        rw [hl0] at h1
        simpa using h1
      have ht1' : t1 ∈ l0 := by
        rw [hl0val]
        exact (mem_foldl_insertNew _ _ t1).mpr (Or.inr ht1)
      have ht2' : t2 ∈ l0 := by
        rw [hl0val]
        exact (mem_foldl_insertNew _ _ t2).mpr (Or.inr ht2)
      have hlen : 1 < l0.length := one_lt_length_of_two_mem l0 t1 t2 ht1' ht2' hne
      have hfilter : stf.labelTrips.filter (fun p => decide (p.1 = L)) = [(L, l0)] :=
        filter_key_of_lookupTrips_some L _ l0 inv3 hl0
      refine ⟨l0, ?_, ht1', ht2'⟩
      rw [← hdups, filter_swap, hfilter]
      simp [List.filter_cons, hlen]
    · intro t0 hall
      cases hl : lookupTrips L stf.labelTrips with
      | none =>
        have hfl : stf.labelTrips.filter (fun p => decide (p.1 = L)) = [] :=
          filter_key_of_lookupTrips_none L _ hl
        rw [← hdups, filter_swap, hfl]
        rfl
      | some l0 =>
        have hl0val : l0 = (labelReports feed L).foldl (fun a t => insertNew t a) [] := by
          rw [hl] at h1
          simpa using h1
        have hsub : ∀ x ∈ l0, x = t0 := by
          intro x hx
          rw [hl0val] at hx
          rcases (mem_foldl_insertNew _ _ x).mp hx with hx' | hx'
          · cases hx'
          · exact hall x hx'
        have hnd : l0.Nodup := by
          rw [hl0val]
          exact nodup_foldl_insertNew _ _ List.nodup_nil
        have hlen : ¬ (1 < l0.length) := by
          have := length_le_one_of_all_eq l0 t0 hnd hsub
          omega
        have hfilter : stf.labelTrips.filter (fun p => decide (p.1 = L)) = [(L, l0)] :=
          filter_key_of_lookupTrips_some L _ l0 inv3 hl
        rw [← hdups, filter_swap, hfilter]
        simp [List.filter_cons, hlen]

/-- Two valid entities sharing label B7 with distinct trips T1, T2. -/
def vpA : VehiclePosition := ⟨⟨some "T1", some "R1"⟩, ⟨some "V1", some "B7"⟩, 2, none, none, none⟩

def vpB : VehiclePosition := ⟨⟨some "T2", some "R1"⟩, ⟨some "V2", some "B7"⟩, 2, none, none, none⟩

def feedAB : List FeedEntity := [⟨some vpA⟩, ⟨some vpB⟩]

def recA : VehicleRecord := ⟨"B7", "R1", "T1", "EN ROUTE VERS", 0, 0, "Non renseigné", "Inconnu"⟩

def recB : VehicleRecord := ⟨"B7", "R1", "T2", "EN ROUTE VERS", 0, 0, "Non renseigné", "Inconnu"⟩

theorem C9_duplicates_witness :
    (∀ t1 t2 : String, t1 ∈ labelReports feedAB "B7" → t2 ∈ labelReports feedAB "B7" →
      t1 ≠ t2 →
      ∃ l, [("B7", ["T1", "T2"])].filter (fun p => decide (p.1 = "B7")) = [("B7", l)] ∧
        t1 ∈ l ∧ t2 ∈ l) ∧
    (∀ t0 : String, (∀ x ∈ labelReports feedAB "B7", x = t0) →
      [("B7", ["T1", "T2"])].filter (fun p => decide (p.1 = "B7")) = []) :=
  C9_duplicates feedAB now0 gEmpty [("V1", recA), ("V2", recB)] ["T1", "T2"]
    [("B7", ["T1", "T2"])] "B7" (by decide)

/-- Claim C10: for every decoded feed (whose analysis completes), the trip id
of every stored vehicle record belongs to the observed-trip set, and every
value of the duplicates map is a set of at least two distinct trip ids, each
of which belongs to the observed-trip set. -/
theorem C10_result_invariants (feed : List FeedEntity) (now : Instant) (g : GtfsData)
    (vs : List (String × VehicleRecord)) (obs : List String)
    (dups : List (String × List String))
    (hres : analyze_realtime_feed feed now g = some (vs, obs, dups)) :
    (∀ p ∈ vs, p.2.trip_id ∈ obs) ∧
    (∀ q ∈ dups, q.2.Nodup ∧ 2 ≤ q.2.length ∧ ∀ x ∈ q.2, x ∈ obs) := by
  unfold analyze_realtime_feed at hres
  cases hr : runFeed g now feed ⟨[], [], []⟩ with
  | none => rw [hr] at hres; cases hres
  | some stf =>
    rw [hr] at hres
    simp only [Option.map_some'] at hres
    have heq := Option.some_inj.mp hres
    have hvs : stf.vehicles = vs := congrArg (fun x => x.1) heq
    have hobs : stf.observed = obs := congrArg (fun x => x.2.1) heq
    have hdups : stf.labelTrips.filter (fun p => decide (1 < p.2.length)) = dups :=
      congrArg (fun x => x.2.2) heq
    obtain ⟨inv1, inv2, -⟩ :=
      runFeed_inv g now feed _ stf hr ⟨by simp, by simp, by simp [keysOf]⟩
    subst hvs hobs hdups
    constructor
    · exact inv1
    · intro q hq
      have hq' := List.mem_filter.mp hq
      obtain ⟨hnd, hsub⟩ := inv2 q hq'.1
      have hlen : 1 < q.2.length := by simpa using hq'.2
      exact ⟨hnd, hlen, hsub⟩

theorem C10_result_invariants_witness :
    (∀ p ∈ [("V1", recA), ("V2", recB)], (Prod.snd p).trip_id ∈ ["T1", "T2"]) ∧
    (∀ q ∈ [("B7", ["T1", "T2"])],
      (Prod.snd q).Nodup ∧ 2 ≤ (Prod.snd q).length ∧
        ∀ x ∈ Prod.snd q, x ∈ ["T1", "T2"]) :=
  C10_result_invariants feedAB now0 gEmpty [("V1", recA), ("V2", recB)] ["T1", "T2"]
    [("B7", ["T1", "T2"])] (by decide)

/-- The vehicle records of one route within a cycle (the per-route grouping
of the aggregation loops). -/
def vehiclesOnRoute (vehicles : List VehicleRecord) (r : String) : List VehicleRecord :=
  vehicles.filter fun v => decide (v.route_id = r)

/-- The per-route delay list of main.py's `display_results` (296-300): only
vehicles whose floor-divided minute delay `delay_seconds // 60` is positive
contribute, and they contribute the floored value. -/
def mainLineDelays (vehicles : List VehicleRecord) (r : String) : List Int :=
  (vehiclesOnRoute vehicles r).filterMap fun v =>
    if 0 < Int.fdiv v.delay_seconds 60 then some (Int.fdiv v.delay_seconds 60) else none

/-- The history update of main.py's `display_results` (302-306), pointwise
per route id (the Python loop appends one `(timestamp, avg)` pair for each
key of `line_delays`). -/
def mainUpdateHistory (vehicles : List VehicleRecord)
    (history : String → List (String × Rat)) (ts : String) :
    String → List (String × Rat) :=
  fun r =>
    match mainLineDelays vehicles r with
    | [] => history r
    | d :: ds =>
      history r ++
        [(ts, (((d :: ds).map fun x => (x : Rat)).sum) / (((d :: ds).length : Nat) : Rat))]

/-- `compute_line_stats` (betamain.py 277-288), pointwise per route id:
the (mean of delay/60 over all the route's vehicles, vehicle count) pair for
routes with at least one vehicle. -/
def compute_line_stats (vehicles : List VehicleRecord) (r : String) : Option (Rat × Nat) :=
  match vehiclesOnRoute vehicles r with
  | [] => none
  | v :: vs =>
    some ((((v :: vs).map fun w => (w.delay_seconds : Rat) / 60).sum) /
      (((v :: vs).length : Nat) : Rat), (v :: vs).length)

/-- The history update of betamain.py's `display_results` (393-398),
pointwise per route id. -/
def betaUpdateHistory (vehicles : List VehicleRecord)
    (history : String → List (String × Rat)) (ts : String) :
    String → List (String × Rat) :=
  fun r =>
    match compute_line_stats vehicles r with
    | none => history r
    | some (avg, _) => history r ++ [(ts, avg)]

/-- `detect_anomalies` (betamain.py 290-303). -/
def detect_anomalies (vehicles : List VehicleRecord)
    (history : String → List (String × Rat)) (threshold_minutes : Int) :
    List (VehicleRecord × String) :=
  (vehicles.map fun v =>
    (if (threshold_minutes : Rat) ≤ |(v.delay_seconds : Rat) / 60| then
      [(v, "Retard/avance très important")] else []) ++
    (match history v.route_id with
     | [] => []
     | rec0 :: recs =>
       if 2 * |(((rec0 :: recs).map fun p => p.2).sum / (((rec0 :: recs).length : Nat) : Rat))| <
            |(v.delay_seconds : Rat) / 60| ∧ 3 < |(v.delay_seconds : Rat) / 60| then
         [(v, "Retard anormal par rapport à l\u0027historique")] else [])).join

/-- A vehicle of route R observed exactly on time (zero delay). -/
def vC5 : VehicleRecord := ⟨"V1", "R", "T", "EN ROUTE VERS", 0, 0, "Non renseigné", "Inconnu"⟩

/-- Claim C5 is false on main.py's aggregation step: route R has one
observed vehicle in the cycle (with zero delay), yet no (timestamp, mean)
sample is appended to R's history — only vehicles with positive
floor-divided minute delay feed main.py's `line_delays`. -/
theorem C5_counterexample :
    vehiclesOnRoute [vC5] "R" ≠ [] ∧
    mainUpdateHistory [vC5] (fun _ => []) "12:00" "R" =
      (fun _ => ([] : List (String × Rat))) "R" := by decide

/-- Claim C5 (amended): betamain's aggregation appends, for every route with
at least one vehicle observed in the cycle, exactly one (timestamp, mean)
sample to that route's history, where the mean is taken over ALL of the
route's vehicles (delay/60 in minutes), and leaves routes with no vehicle
and all existing samples untouched; main.py's aggregation instead appends a
sample exactly for the routes having at least one vehicle with positive
floor-divided minute delay, with the mean taken over those positive floored
values only. -/
theorem C5_history_update (vehicles : List VehicleRecord)
    (history : String → List (String × Rat)) (ts : String) (r : String) :
    (vehiclesOnRoute vehicles r ≠ [] →
      betaUpdateHistory vehicles history ts r =
        history r ++
          [(ts, (((vehiclesOnRoute vehicles r).map fun v => (v.delay_seconds : Rat) / 60).sum) /
            (((vehiclesOnRoute vehicles r).length : Nat) : Rat))]) ∧
    (vehiclesOnRoute vehicles r = [] →
      betaUpdateHistory vehicles history ts r = history r) ∧
    (mainLineDelays vehicles r ≠ [] →
      mainUpdateHistory vehicles history ts r =
        history r ++
          [(ts, (((mainLineDelays vehicles r).map fun x => (x : Rat)).sum) /
            (((mainLineDelays vehicles r).length : Nat) : Rat))]) ∧
    (mainLineDelays vehicles r = [] →
      mainUpdateHistory vehicles history ts r = history r) := by
  refine ⟨?_, ?_, ?_, ?_⟩
  · intro h
    cases hv : vehiclesOnRoute vehicles r with
    | nil => exact absurd hv h
    | cons v vs => simp [betaUpdateHistory, compute_line_stats, hv]
  · intro h
    simp [betaUpdateHistory, compute_line_stats, h]
  · intro h
    cases hd : mainLineDelays vehicles r with
    | nil => exact absurd hd h
    | cons d ds => simp [mainUpdateHistory, hd]
  · intro h
    simp [mainUpdateHistory, h]

theorem C5_history_update_witness :
    betaUpdateHistory [vC5] (fun _ => []) "12:00" "R" =
      (fun _ => ([] : List (String × Rat))) "R" ++
        [("12:00", (((vehiclesOnRoute [vC5] "R").map fun v => (v.delay_seconds : Rat) / 60).sum) /
          (((vehiclesOnRoute [vC5] "R").length : Nat) : Rat))] :=
  (C5_history_update [vC5] (fun _ => []) "12:00" "R").1 (by decide)

theorem mem_detect_large (vehicles : List VehicleRecord)
    (history : String → List (String × Rat)) (t : Int) (v : VehicleRecord) :
    (v, "Retard/avance très important") ∈ detect_anomalies vehicles history t ↔
      v ∈ vehicles ∧ (t : Rat) ≤ |(v.delay_seconds : Rat) / 60| := by
  unfold detect_anomalies
  rw [List.mem_join]
  constructor
  · rintro ⟨l, hl, hmem⟩
    obtain ⟨w, hw, rfl⟩ := List.mem_map.mp hl
    rcases List.mem_append.mp hmem with h | h
    · by_cases hc : (t : Rat) ≤ |(w.delay_seconds : Rat) / 60|
      · rw [if_pos hc] at h
        have hvw : v = w := congrArg Prod.fst (List.mem_singleton.mp h)
        subst hvw
        exact ⟨hw, hc⟩
      · rw [if_neg hc] at h
        cases h
    · exfalso
      cases hh : history w.route_id with
      | nil => rw [hh] at h; cases h
      | cons rec0 recs =>
        rw [hh] at h
        replace h : (v, "Retard/avance très important") ∈
            (if 2 * |(((rec0 :: recs).map fun p => p.2).sum /
                (((rec0 :: recs).length : Nat) : Rat))| < |(w.delay_seconds : Rat) / 60| ∧
                3 < |(w.delay_seconds : Rat) / 60| then
              [(w, "Retard anormal par rapport à l\u0027historique")] else []) := h
        split at h
        · have := List.mem_singleton.mp h
          have hne : ("Retard/avance très important" : String) ≠
              "Retard anormal par rapport à l\u0027historique" := by decide
          exact hne (congrArg Prod.snd this)
        · cases h
  · rintro ⟨hv, hle⟩
    refine ⟨_, List.mem_map.mpr ⟨v, hv, rfl⟩, ?_⟩
    rw [if_pos hle]
    exact List.mem_append.mpr (Or.inl (List.mem_cons_self ..))

theorem threshold_cast_iff (a t : Int) :
    (t : Rat) ≤ |(a : Rat) / 60| ↔ t * 60 ≤ |a| := by
  rw [abs_div, ← Int.cast_abs, abs_of_nonneg (by norm_num : (0 : Rat) ≤ (60 : Rat)),
    le_div_iff (by norm_num : (0 : Rat) < 60)]
  exact_mod_cast Iff.rfl

/-- Claim C7: in `detect_anomalies` with absolute-minutes threshold t, a
vehicle whose absolute delay is exactly t*60 seconds is flagged as a large
deviation (the comparison is an inclusive >=), and one whose absolute delay
is t*60 - 1 seconds is not flagged by that rule. -/
theorem C7_threshold_boundary (vehicles : List VehicleRecord)
    (history : String → List (String × Rat)) (t : Int) (v : VehicleRecord)
    (hv : v ∈ vehicles) :
    (|v.delay_seconds| = t * 60 →
      (v, "Retard/avance très important") ∈ detect_anomalies vehicles history t) ∧
    (|v.delay_seconds| = t * 60 - 1 →
      (v, "Retard/avance très important") ∉ detect_anomalies vehicles history t) := by
  constructor
  · intro hd
    rw [mem_detect_large]
    refine ⟨hv, ?_⟩
    rw [threshold_cast_iff, hd]
  · intro hd
    rw [mem_detect_large]
    rintro ⟨-, hle⟩
    rw [threshold_cast_iff, hd] at hle
    omega

/-- A vehicle of route R with a delay of exactly 600 seconds. -/
def vC7 : VehicleRecord := ⟨"V7", "R", "T", "EN ROUTE VERS", 0, 600, "Non renseigné", "Inconnu"⟩

theorem C7_threshold_boundary_witness :
    (vC7, "Retard/avance très important") ∈ detect_anomalies [vC7] (fun _ => []) 10 :=
  (C7_threshold_boundary [vC7] (fun _ => []) 10 vC7 (by decide)).1 (by decide)

end Ruban
